import Mathlib

/-!
Verification of the brewery record-stream toolkit against its specification.

The development shallowly embeds the Python sources:

* `brewery/fields.py` — the `Field` / `FieldList` metadata model, `FieldMap`
  and `RowFieldFilter`;
* `brewery/base/iterator.py` — the streaming operators (`distinct`,
  `left_inner_join`, `aggregate`) and the transformation compiler
  (`compile_transformation`, `transform` and the transformation classes).

Python values are modelled by `PyVal` (None, int, str, tuple), Python
exceptions by `PyErr`; fallible code returns `Except PyErr _`.  Python
dictionaries are modelled as association lists with insert-or-replace
update, which preserves lookup behaviour exactly.
-/

namespace Brewery

/-- Dynamic Python value: None, an integer, a string, or a pair (the only
tuple shape the embedded code builds, used by the `average` accumulator). -/
inductive PyVal where
  | noneV : PyVal
  | intV (n : Int) : PyVal
  | strV (s : String) : PyVal
  | pairV (a b : PyVal) : PyVal
  deriving DecidableEq, Repr

/-- Python exceptions raised by the embedded code.  The constructors
`unknownFieldError` and `duplicateFieldError` model the error classes named
by the specification; the embedded source never raises them, which is what
several claims turn on. -/
inductive PyErr where
  | keyError (msg : String) : PyErr
  | valueError (msg : String) : PyErr
  | typeError (msg : String) : PyErr
  | indexError (msg : String) : PyErr
  | attributeError (msg : String) : PyErr
  | argumentError (msg : String) : PyErr
  | notImplementedError (msg : String) : PyErr
  | nameError (msg : String) : PyErr
  | zeroDivisionError (msg : String) : PyErr
  | unknownFieldError (msg : String) : PyErr
  | duplicateFieldError (msg : String) : PyErr
  deriving DecidableEq, Repr

deriving instance DecidableEq for Except

/-- Row of a record stream: values positionally aligned to a field list. -/
abbrev Row := List PyVal

/-- Python `row[i]` on a list: the value, or an IndexError. -/
def pyGet (row : List PyVal) (i : Nat) : Except PyErr PyVal :=
  match row.get? i with
  | some v => .ok v
  | Option.none => .error (.indexError "list index out of range")

/-- Lookup in an association list modelling a Python dict. -/
def alookup {κ α : Type} [DecidableEq κ] (d : List (κ × α)) (k : κ) : Option α :=
  (d.find? (fun p => p.1 = k)).map (fun p => p.2)

/-- Update of an association list modelling Python `d[k] = v`: replace the
existing entry in place, or append a new one; lookups see exactly Python
dict behaviour. -/
def dictSet {κ α : Type} [DecidableEq κ] (d : List (κ × α)) (k : κ) (v : α) :
    List (κ × α) :=
  if d.any (fun p => p.1 = k) then
    d.map (fun p => if p.1 = k then (k, v) else p)
  else
    d ++ [(k, v)]

/-- Embeds Python integer addition and string concatenation with `+`;
other operand combinations raise TypeError. -/
def pyAdd : PyVal → PyVal → Except PyErr PyVal
  | .intV a, .intV b => .ok (.intV (a + b))
  | .strV a, .strV b => .ok (.strV (a ++ b))
  | _, _ => .error (.typeError "unsupported operand types for +")

/-- Embeds Python 2 integer division (`/` on two ints floors); division by
zero raises ZeroDivisionError, other operands TypeError. -/
def pyDiv : PyVal → PyVal → Except PyErr PyVal
  | .intV a, .intV b =>
    if b = 0 then .error (.zeroDivisionError "integer division or modulo by zero")
    else .ok (.intV (Int.fdiv a b))
  | _, _ => .error (.typeError "unsupported operand types for /")

/-- Scalar comparison following CPython 2: None sorts before everything
else, numbers before other types, values of one type by their natural
order, and otherwise by type name ("str" before "tuple"). -/
def pyScalarLt : PyVal → PyVal → Bool
  | .noneV, _ => true
  | _, .noneV => false
  | .intV a, .intV b => decide (a < b)
  | .intV _, _ => true
  | _, .intV _ => false
  | .strV a, .strV b => decide (a < b)
  | .strV _, .pairV _ _ => true
  | .pairV _ _, .strV _ => false
  | .pairV _ _, .pairV _ _ => false

/-- CPython 2 comparison as used by the builtin `min` and `max` stored in
the aggregation table; the pairs occurring here only ever hold scalars, so
pair comparison is lexicographic via the scalar order.  Note `noneV <
noneV` is corrected to false. -/
def pyLt : PyVal → PyVal → Bool
  | .noneV, .noneV => false
  | .pairV a b, .pairV c d =>
    if pyScalarLt a c then true
    else if pyScalarLt c a then false
    else pyScalarLt b d
  | x, y => pyScalarLt x y

/-- Embeds the builtin `min` on two arguments. -/
def pyMin (a b : PyVal) : PyVal := if pyLt b a then b else a

/-- Embeds the builtin `max` on two arguments. -/
def pyMax (a b : PyVal) : PyVal := if pyLt a b then b else a

/-! ### brewery/fields.py : the Field / FieldList metadata model -/

/-- Embeds class `Field` of `brewery/fields.py`: a named, typed column
descriptor.  Defaults are those of `Field.__init__`. -/
structure Field where
  name : String
  label : Option String := Option.none
  storage_type : String := "unknown"
  analytical_type : String := "typeless"
  concrete_storage_type : Option String := Option.none
  missing_values : Option (List PyVal) := Option.none
  deriving DecidableEq, Repr

/-- Embeds the class attribute `Field.default_analytical_type` (note the
singular spelling in the source; the dead code in `FieldList.append` refers
to a misspelled plural `default_analytical_types`). -/
def Field.default_analytical_type : List (String × String) :=
  [("unknown", "typeless"), ("string", "typeless"), ("text", "typeless"),
   ("integer", "discrete"), ("float", "range"), ("date", "typeless")]

/-- Embeds the local dict `d` built by `FieldList.append`: which keys are
present, and with what values.  `storage_type` and `analytical_type` are
set unconditionally before the spec is examined (source lines 252 and 253),
hence they are plain strings here rather than optional ones. -/
structure DDict where
  name : Option String := Option.none
  label : Option String := Option.none
  storage_type : String := "unknown"
  analytical_type : Option String := some "typeless"
  adapter_storage_type : Option String := Option.none
  deriving DecidableEq, Repr

/-- Embeds a Python dict passed to `FieldList.append` as a field
description: the keys `append` reads, each possibly absent. -/
structure FDict where
  name : Option String := Option.none
  label : Option String := Option.none
  storage_type : Option String := Option.none
  analytical_type : Option String := Option.none
  adapter_storage_type : Option String := Option.none
  deriving DecidableEq, Repr

/-- Argument shapes accepted by `FieldList.append`: a `Field` object, a
string, a tuple or list of strings, a dict, or any other object (rejected
with ValueError). -/
inductive FSpec where
  | fieldF (f : Field) : FSpec
  | strF (s : String) : FSpec
  | tupF (l : List String) : FSpec
  | dictF (d : FDict) : FSpec
  | otherF : FSpec
  deriving Repr

/-- Embeds class `FieldList` of `brewery/fields.py`: the three internal
containers kept in sync by every operation. -/
structure FieldList where
  _fields : List Field
  _field_dict : List (String × Field)
  _field_names : List String
  deriving DecidableEq, Repr

/-- Empty field list, as produced by `FieldList()`. -/
def FieldList.empty : FieldList :=
  { _fields := [], _field_dict := [], _field_names := [] }

/-- Final lines of `FieldList.append` (source lines 287 to 289): push the
new field onto `_fields`, overwrite `_field_dict` at its name, and push the
name onto `_field_names`.  No duplicate-name check is performed. -/
def FieldList.appendField (fl : FieldList) (f : Field) : FieldList :=
  { _fields := fl._fields ++ [f],
    _field_dict := dictSet fl._field_dict f.name f,
    _field_names := fl._field_names ++ [f.name] }

/-- Normalization part of `FieldList.append` (source lines 251 to 285):
build the dict `d` from the spec, then construct the `Field`.  Mirrors the
source exactly, including the dead default-analytical-type branch: since
`d` is created with `analytical_type` already set (line 253), the test
`if "analytical_type" not in d` (line 281) can never succeed; were it to
succeed, the lookup of the misspelled `Field.default_analytical_types`
(line 282) would raise AttributeError, and that is what the branch embeds. -/
def normalizeFieldSpec (field : FSpec) : Except PyErr Field := do
  let d0 : DDict := { storage_type := "unknown", analytical_type := some "typeless" }
  let d : DDict ←
    match field with
    | .fieldF _ => .error (.valueError "unreachable: Field objects bypass normalization")
    | .strF s => .ok { d0 with name := some s }
    | .tupF l =>
      match l with
      | [] => .error (.indexError "tuple index out of range")
      | n :: rest =>
        match rest with
        | [] => .ok { d0 with name := some n }
        | st :: rest2 =>
          match rest2 with
          | [] => .ok { d0 with name := some n, storage_type := st }
          | at2 :: _ =>
            .ok { d0 with name := some n, storage_type := st,
                          analytical_type := some at2 }
    | .dictF fd =>
      match fd.name with
      | Option.none => .error (.keyError "name")
      | some n =>
        .ok { name := some n,
              label := fd.label,
              storage_type := fd.storage_type.getD "unknown",
              analytical_type :=
                match fd.analytical_type with
                | some a => some a
                | Option.none => d0.analytical_type,
              adapter_storage_type := fd.adapter_storage_type }
    | .otherF => .error (.valueError "Unknown field object type of field description object")
  if d.analytical_type = Option.none then
    .error (.attributeError "type object Field has no attribute default_analytical_types")
  else
    match d.adapter_storage_type with
    | some _ => .error (.typeError "__init__ got an unexpected keyword argument adapter_storage_type")
    | Option.none =>
      match d.name with
      | Option.none => .error (.typeError "__init__ requires argument name")
      | some n =>
        .ok { name := n,
              label := d.label,
              storage_type := d.storage_type,
              analytical_type := d.analytical_type.getD "typeless" }

/-- Embeds `FieldList.append` (source lines 230 to 289): a `Field` object
is appended as-is (the source marks this with `FIXME: should be a copy?`);
any other spec is normalized first.  Note there is no duplicate-name check
anywhere in this method. -/
def FieldList.append (fl : FieldList) (field : FSpec) : Except PyErr FieldList := do
  match field with
  | .fieldF f => .ok (fl.appendField f)
  | _ => do
    let new_field ← normalizeFieldSpec field
    .ok (fl.appendField new_field)

/-- Embeds `FieldList.__init__` / the module-level `fieldlist` helper:
append each spec in turn to an empty list. -/
def fieldlist (fields : List FSpec) : Except PyErr FieldList :=
  fields.foldlM (fun fl f => fl.append f) FieldList.empty

/-- Argument of `FieldList.index`: a field name or a `Field` object. -/
inductive FieldRef where
  | byName (s : String) : FieldRef
  | byField (f : Field) : FieldRef
  deriving DecidableEq, Repr

/-- Embeds the module-level `field_name` helper of `brewery/fields.py`. -/
def field_name : FieldRef → String
  | .byName s => s
  | .byField f => f.name

/-- Embeds `FieldList.index` (source lines 318 to 326): position of the
first name equal to the argument in `_field_names`; the ValueError from
`list.index` is caught and re-raised as a builtin KeyError. -/
def FieldList.index (fl : FieldList) (field : FieldRef) : Except PyErr Nat :=
  match fl._field_names.findIdx? (fun n => n = field_name field) with
  | some i => .ok i
  | Option.none =>
    .error (.keyError ("Field list has no field with name " ++ field_name field))

/-- Tests whether an `Except` result is an `UnknownFieldError`; used to
state, without quantifying over messages, that a computation did not fail
with that error class. -/
def isUnknownFieldError {α : Type} : Except PyErr α → Bool
  | .error (.unknownFieldError _) => true
  | _ => false

/-- Tests whether an `Except` result is a `DuplicateFieldError`. -/
def isDuplicateFieldError {α : Type} : Except PyErr α → Bool
  | .error (.duplicateFieldError _) => true
  | _ => false

/-! ### brewery/fields.py : FieldMap -/

/-- Embeds class `FieldMap` of `brewery/fields.py`: a rename mapping and a
drop list. -/
structure FieldMap where
  rename : List (String × String)
  drop : List String

/-- Loop body of `FieldMap.map` (source lines 415 to 425): shallow-copy
and rename the field when its original name is in the rename mapping, then
append it to the output unless its original name is in the drop list.  The
shallow copy `copy.copy(field)` followed by the name assignment is the
record update below. -/
def FieldMap.mapStep (fm : FieldMap) (output_fields : FieldList) (field : Field) :
    FieldList :=
  let new_field :=
    match alookup fm.rename field.name with
    | some newName => { field with name := newName }
    | Option.none => field
  if field.name ∈ fm.drop then output_fields
  else output_fields.appendField new_field

/-- Embeds `FieldMap.map` (source lines 410 to 427): fold the loop body
over the input fields, starting from an empty `FieldList`. -/
def FieldMap.map (fm : FieldMap) (fields : List Field) : FieldList :=
  fields.foldl fm.mapStep FieldList.empty

/-- Statement of claim C5 in the specification wording: drop every field
whose original name is in the drop set, then rename the remaining mapped
fields, preserving every other attribute. -/
def fieldMapSpec (fm : FieldMap) (fields : List Field) : List Field :=
  (fields.filter (fun f => decide (f.name ∉ fm.drop))).map
    (fun f =>
      match alookup fm.rename f.name with
      | some n => { f with name := n }
      | Option.none => f)

/-! ### Object-identity model of FieldList.copy (claim C6)

Python lists hold references to shared objects, and `FieldList.copy`
(`FieldList(self._fields)`) re-appends the very same `Field` objects into
a fresh `FieldList` — the source marks the aliasing with
`FIXME: should be a copy?`.  To reason about mutation of shared `Field`
objects we model object identity explicitly: a heap of `Field` objects
addressed by references. -/

/-- Heap of Field objects: references are natural numbers, `next` is the
next fresh reference (all references handed out so far are below it). -/
structure Heap where
  store : Nat → Field
  next : Nat

/-- Reference-level `FieldList`: `_fields` holds references to shared
`Field` objects, `_field_dict` maps names to references, `_field_names`
holds the (immutable) name strings. -/
structure FieldListR where
  _fields : List Nat
  _field_dict : List (String × Nat)
  _field_names : List String
  deriving DecidableEq, Repr

/-- Empty reference-level field list, as produced by `FieldList()`. -/
def FieldListR.empty : FieldListR :=
  { _fields := [], _field_dict := [], _field_names := [] }

/-- Reference-level version of the final lines of `FieldList.append` for a
`Field`-object argument: the reference is stored as-is, so the object is
shared, not copied. -/
def FieldListR.appendRef (fl : FieldListR) (h : Heap) (r : Nat) : FieldListR :=
  { _fields := fl._fields ++ [r],
    _field_dict := dictSet fl._field_dict (h.store r).name r,
    _field_names := fl._field_names ++ [(h.store r).name] }

/-- Embeds `FieldList.copy()` without a subset argument (source lines 385
to 395): `FieldList(self._fields)` appends every contained Field object of
the original into a fresh FieldList. -/
def FieldListR.copy (h : Heap) (fl : FieldListR) : FieldListR :=
  fl._fields.foldl (fun out r => out.appendRef h r) FieldListR.empty

/-- Allocation of a fresh Field object, as `Field(**d)` performs. -/
def Heap.alloc (h : Heap) (f : Field) : Heap × Nat :=
  ({ store := fun r => if r = h.next then f else h.store r, next := h.next + 1 },
   h.next)

/-- Mutation of the Field object behind reference `r`, as an attribute
assignment such as `field.label = ...` performs. -/
def Heap.setField (h : Heap) (r : Nat) (f : Field) : Heap :=
  { h with store := fun x => if x = r then f else h.store x }

/-- Observable content of a reference-level FieldList: its Field objects,
dereferenced, in order. -/
def observe (h : Heap) (fl : FieldListR) : List Field :=
  fl._fields.map h.store

/-- Concrete heap for the claim C6 counterexample: one Field object named
"a" at reference 0. -/
def c6Heap : Heap := { store := fun _ => { name := "a" }, next := 1 }

/-- Concrete original FieldList for the claim C6 counterexample. -/
def c6F : FieldListR :=
  { _fields := [0], _field_dict := [("a", 0)], _field_names := ["a"] }

/-! ### brewery/base/iterator.py : distinct (claim C7) -/

/-- Modelled from the spec: `FieldFilter(keep=keys).row_filter(fields)`,
used by `distinct`, comes from the `brewery/metadata` module which is not
among the sources.  Per the specification a RowFieldFilter is "a
precomputed list of source positions to keep": here, the positions of the
fields whose names are in `keys`, in original field order.  Fields are
identified by name. -/
def keepPositions (fields : List String) (keys : List String) : List Nat :=
  (List.range fields.length).filter (fun i => decide (fields.getD i "" ∈ keys))

/-- Modelled from the spec: applying a RowFieldFilter "to a row yields a
new row containing only the kept positions, in original relative order". -/
def applyPositions (ixs : List Nat) (row : Row) : Row :=
  ixs.map (fun i => row.getD i PyVal.noneV)

/-- Unsorted-branch loop of `distinct` (source lines 35 to 44): keep a set
of seen key tuples, yield a row only when its key tuple is new. -/
def distinctLoop (keyOf : Row → Row) : List Row → List Row → List Row
  | _, [] => []
  | distinct_values, row :: rest =>
    let key_tuple := keyOf row
    if key_tuple ∈ distinct_values then distinctLoop keyOf distinct_values rest
    else row :: distinctLoop keyOf (key_tuple :: distinct_values) rest

/-- Embeds `distinct` (source lines 20 to 44).  The sorted branch of the
source is broken as written: its loop body reads the undefined name `row`,
so on any non-empty input it raises NameError; the unsorted branch is the
seen-set loop. -/
def distinct (iterator : List Row) (fields : List String) (keys : List String)
    (is_sorted : Bool := false) : Except PyErr (List Row) :=
  let row_filter := applyPositions (keepPositions fields keys)
  if is_sorted then
    match iterator with
    | [] => .ok []
    | _ :: _ => .error (.nameError "global name row is not defined")
  else
    .ok (distinctLoop row_filter [] iterator)

/-- Statement of claim C7 in the specification wording, independent of the
seen-set loop: keep the first row, drop every later row sharing its key
tuple, recurse. -/
def firstSeenRows (keyOf : Row → Row) : List Row → List Row
  | [] => []
  | r :: rs =>
    r :: firstSeenRows keyOf (rs.filter (fun q => decide (keyOf q ≠ keyOf r)))
termination_by rows => rows.length
decreasing_by
  simp only [List.length_cons]
  exact Nat.lt_succ_of_le (List.length_filter_le _ _)

/-! ### brewery/base/iterator.py : left_inner_join (claim C1) -/

/-- Detail-map construction of `left_inner_join` (source line 210):
`dict((row[join[1]], row) for row in detail)` — a later detail row
overwrites an earlier one with the same key; an out-of-range key position
raises IndexError. -/
def buildDetailDict (j : Nat) :
    List Row → List (PyVal × Row) → Except PyErr (List (PyVal × Row))
  | [], d => .ok d
  | row :: rest, d => do
    let key ← pyGet row j
    buildDetailDict j rest (dictSet d key row)

/-- Detail-map loop of `left_inner_join` (source lines 208 to 211): one
map per `(detail, join)` pair. -/
def buildMaps : List (List Row × (Nat × Nat)) →
    Except PyErr (List (List (PyVal × Row)))
  | [] => .ok []
  | (detail, join) :: rest => do
    let detail_dict ← buildDetailDict join.2 detail []
    let maps ← buildMaps rest
    pure (detail_dict :: maps)

/-- Inner loop over the detail maps for one master row (source lines 214
to 224): extend the row with each matched detail row; a KeyError from a
map lookup is caught, clears the match flag and breaks; an IndexError from
indexing the master row propagates. -/
def joinOne (mrow : Row) :
    List (List (PyVal × Row) × (Nat × Nat)) → Row → Except PyErr (Option Row)
  | [], acc => .ok (some acc)
  | (detail, join) :: rest, acc => do
    let key ← pyGet mrow join.1
    match alookup detail key with
    | some detail_row => joinOne mrow rest (acc ++ detail_row)
    | Option.none => .ok Option.none

/-- Master loop of `left_inner_join` (source lines 213 to 227): emit the
extended row exactly when every detail map matched. -/
def joinMasterLoop (maps : List (List (PyVal × Row))) (joins : List (Nat × Nat)) :
    List Row → Except PyErr (List Row)
  | [] => .ok []
  | master_row :: rest => do
    let row? ← joinOne master_row (maps.zip joins) master_row
    let rest2 ← joinMasterLoop maps joins rest
    match row? with
    | some row => pure (row :: rest2)
    | Option.none => pure rest2

/-- Embeds `left_inner_join` (source lines 184 to 227): ArgumentError when
no details are given or when the detail count differs from the join count;
otherwise every detail stream is materialized into a map and each master
row is emitted, extended with the matched detail row from every map, only
when all maps have a match. -/
def left_inner_join (master : List Row) (details : List (List Row))
    (joins : List (Nat × Nat)) : Except PyErr (List Row) :=
  if details = [] then
    .error (.argumentError "No details provided, nothing to join")
  else if details.length ≠ joins.length then
    .error (.argumentError "For every detail there should be a join")
  else do
    let maps ← buildMaps (details.zip joins)
    joinMasterLoop maps joins master

/-- Specification-side detail map: total version of `buildDetailDict`,
coinciding with it when the key position is in range for every detail
row. -/
def detailDictPure (detail : List Row) (j : Nat) : List (PyVal × Row) :=
  detail.foldl (fun d row => dictSet d (row.getD j PyVal.noneV) row) []

/-- Statement side of claim C1: every detail map contains a match for the
master row's corresponding key. -/
def allMatch (maps : List (List (PyVal × Row))) (joins : List (Nat × Nat))
    (mrow : Row) : Bool :=
  (maps.zip joins).all
    (fun p => (alookup p.1 (mrow.getD p.2.1 PyVal.noneV)).isSome)

/-- Statement side of claim C1: the master row extended with the matched
detail row from every detail map, in order. -/
def extendRow (maps : List (List (PyVal × Row))) (joins : List (Nat × Nat))
    (mrow : Row) : Row :=
  mrow ++ (maps.zip joins).foldl
    (fun acc p => acc ++ (alookup p.1 (mrow.getD p.2.1 PyVal.noneV)).getD []) []

/-! ### brewery/base/iterator.py : the transformation compiler (claims C9, C10) -/

/-- Modelled from the spec: `FieldList.mask` of the `brewery/metadata`
module, which is not among the sources — "a boolean sequence aligned to
full FieldList order, true where a field is in the subset".  Fields are
identified by name. -/
def maskOf (fields : List String) (subset : List String) : List Bool :=
  fields.map (fun name => decide (name ∈ subset))

/-- Modelled from the spec: `fields.index(name)` on the metadata FieldList
used by the iterator module — "index(field_name_or_field) -> position;
fails with UnknownFieldError if absent". -/
def namesIndex (fields : List String) (name : String) : Except PyErr Nat :=
  match fields.findIdx? (fun n => n = name) with
  | some i => .ok i
  | Option.none =>
    .error (.unknownFieldError ("Field list has no field with name " ++ name))

/-- Embeds `itertools.compress(row, mask)`: the values selected by the
mask, truncating at the shorter sequence. -/
def compress (row : Row) (mask : List Bool) : Row :=
  ((row.zip mask).filter (fun p => p.2)).map (fun p => p.1)

/-- Embeds class `CopyValueTransformation` (source lines 325 to 334). -/
structure CopyValueTransformation where
  source_index : Nat
  missing_value : PyVal
  deriving Repr

/-- Embeds `CopyValueTransformation.__init__`. -/
def CopyValueTransformation.make (fields : List String) (source : String)
    (missing_value : PyVal := PyVal.noneV) :
    Except PyErr CopyValueTransformation := do
  let i ← namesIndex fields source
  pure { source_index := i, missing_value := missing_value }

/-- Embeds `CopyValueTransformation.__call__`: the source value, with the
missing value substituted when it is None. -/
def CopyValueTransformation.call (t : CopyValueTransformation) (row : Row) :
    Except PyErr PyVal := do
  let result ← pyGet row t.source_index
  if result ≠ PyVal.noneV then pure result else pure t.missing_value

/-- Embeds class `MapTransformation` (source lines 342 to 348).  The
`mapping` is None when the rule dict has no "map" key; calling `.get` on
it then raises AttributeError, as in Python. -/
structure MapTransformation where
  source_index : Nat
  missing_value : PyVal
  mapping : Option (List (PyVal × PyVal))

/-- Embeds `MapTransformation.__init__`. -/
def MapTransformation.make (fields : List String)
    (mapping : Option (List (PyVal × PyVal))) (source : String)
    (missing_value : PyVal := PyVal.noneV) : Except PyErr MapTransformation := do
  let i ← namesIndex fields source
  pure { source_index := i, missing_value := missing_value, mapping := mapping }

/-- Embeds `MapTransformation.__call__`: dictionary lookup of the source
value, falling back to the missing value. -/
def MapTransformation.call (t : MapTransformation) (row : Row) :
    Except PyErr PyVal := do
  match t.mapping with
  | Option.none => .error (.attributeError "NoneType object has no attribute get")
  | some m => do
    let v ← pyGet row t.source_index
    pure ((alookup m v).getD t.missing_value)

/-- Embeds class `FunctionTransformation` (source lines 350 to 373).  The
user function is modelled as a Lean function on the list of selected
values (a one-element list in the single-source case); the extra keyword
arguments `args` are regarded as captured inside that function.  Exactly
one of `source_index` and `mask` is set by the constructor, and
`__call__` branches on the Python truthiness of `source_index` — None and
0 are both falsy, which is what claim C9 turns on. -/
structure FunctionTransformation where
  function : Option (Row → PyVal)
  source_index : Option Nat
  mask : Option (List Bool)
  missing_value : PyVal

/-- Embeds `FunctionTransformation.__init__`: a string source stores its
index and leaves the mask as None; a list source stores the mask and
leaves the index as None. -/
def FunctionTransformation.make (fields : List String)
    (function : Option (Row → PyVal)) (source : Sum String (List String))
    (missing_value : PyVal := PyVal.noneV) :
    Except PyErr FunctionTransformation := do
  match source with
  | .inl s => do
    let i ← namesIndex fields s
    pure { function := function, source_index := some i, mask := Option.none,
           missing_value := missing_value }
  | .inr l =>
    pure { function := function, source_index := Option.none,
           mask := some (maskOf fields l), missing_value := missing_value }

/-- Python truthiness of the optional integer `self.source_index`: None
and 0 are both falsy. -/
def truthyIndex : Option Nat → Bool
  | Option.none => false
  | some n => decide (n ≠ 0)

/-- Embeds `FunctionTransformation.__call__` (source lines 363 to 373):
`if self.source_index:` selects the single-value branch only for a truthy
index; otherwise `itertools.compress(row, self.mask)` runs, which raises
TypeError when the mask is None. -/
def FunctionTransformation.call (t : FunctionTransformation) (row : Row) :
    Except PyErr PyVal := do
  let args ←
    if truthyIndex t.source_index then do
      let v ← pyGet row (t.source_index.getD 0)
      pure [v]
    else
      match t.mask with
      | some m => pure (compress row m)
      | Option.none => .error (.typeError "argument of type NoneType is not iterable")
  let result ←
    match t.function with
    | some f => pure (f args)
    | Option.none => .error (.typeError "NoneType object is not callable")
  if result ≠ PyVal.noneV then pure result else pure t.missing_value

/-- Compiled transformation callables, one per class of the source. -/
inductive Transformation where
  | copyT (t : CopyValueTransformation) : Transformation
  | setT (value : PyVal) : Transformation
  | mapT (t : MapTransformation) : Transformation
  | funcT (t : FunctionTransformation) : Transformation

/-- Dispatch of a compiled transformation on a row.  `setT` embeds
`SetValueTransformation.__call__` (source lines 336 to 340): the stored
constant. -/
def Transformation.call : Transformation → Row → Except PyErr PyVal
  | .copyT t, row => t.call row
  | .setT v, _ => .ok v
  | .mapT t, row => t.call row
  | .funcT t, row => t.call row

/-- Embeds the rule dictionary of a transformation entry: the keys
`compile_transformation` reads, each possibly absent.  A Python source
value is a string or a list of field names. -/
structure TransDesc where
  action : Option String := Option.none
  source : Option (Sum String (List String)) := Option.none
  function : Option (Row → PyVal) := Option.none
  map : Option (List (PyVal × PyVal)) := Option.none
  value : Option PyVal := Option.none
  missing_value : Option PyVal := Option.none

/-- Embeds one entry of a transformation list: a 1-tuple `(target,)`, a
pair with None, a pair with a bare source-field name, or a pair with a
rule dictionary. -/
inductive TransRule where
  | singleton : TransRule
  | noneRule : TransRule
  | sourceStr (s : String) : TransRule
  | descRule (d : TransDesc) : TransRule

/-- Resolution of a copy-style or map-style source, which must be a single
field name; Python's `field_name` helper on a list raises AttributeError. -/
def sourceAsName : Sum String (List String) → Except PyErr String
  | .inl s => .ok s
  | .inr _ => .error (.attributeError "list object has no attribute name")

/-- Entry compilation of `compile_transformation` (source lines 381 to
411): build the copy/function/map/set callable and store it in the
ordered dict under the target; a rule dict whose action is non-empty and
none of "copy", "function", "map", "set" matches no branch of the if/elif
chain — nothing is stored and no error is raised. -/
def compileEntry (fields : List String)
    (out : List (String × Transformation)) :
    String × TransRule → Except PyErr (List (String × Transformation))
  | (target, .singleton) => do
    let t ← CopyValueTransformation.make fields target
    pure (dictSet out target (.copyT t))
  | (target, .noneRule) => do
    let t ← CopyValueTransformation.make fields target
    pure (dictSet out target (.copyT t))
  | (target, .sourceStr s) => do
    let t ← CopyValueTransformation.make fields s
    pure (dictSet out target (.copyT t))
  | (target, .descRule desc) => do
    let action := desc.action
    let source := desc.source.getD (Sum.inl target)
    if action = Option.none ∨ action = some "" ∨ action = some "copy" then do
      let s ← sourceAsName source
      let t ← CopyValueTransformation.make fields s
        (desc.missing_value.getD PyVal.noneV)
      pure (dictSet out target (.copyT t))
    else if action = some "function" then do
      let t ← FunctionTransformation.make fields desc.function source
        (desc.missing_value.getD PyVal.noneV)
      pure (dictSet out target (.funcT t))
    else if action = some "map" then do
      let s ← sourceAsName source
      let t ← MapTransformation.make fields desc.map s
        (desc.missing_value.getD PyVal.noneV)
      pure (dictSet out target (.mapT t))
    else if action = some "set" then
      pure (dictSet out target (.setT (desc.value.getD PyVal.noneV)))
    else
      pure out

/-- Embeds `compile_transformation` (source lines 375 to 412): fold the
entries into an ordered dict of target to callable. -/
def compile_transformation (transformation : List (String × TransRule))
    (fields : List String) : Except PyErr (List (String × Transformation)) :=
  transformation.foldlM (compileEntry fields) []

/-- Embeds `transform` (source lines 414 to 419): one output value per
compiled transformation, in dict order. -/
def transform (transformations : List Transformation) (row : Row) :
    Except PyErr (List PyVal) :=
  transformations.mapM (fun trans => trans.call row)

/-- Applying the mapper returned by `compile_transformation` — the partial
application of `transform` to `out.values()` — to a row. -/
def applyCompiled (out : List (String × Transformation)) (row : Row) :
    Except PyErr (List PyVal) :=
  transform (out.map (fun p => p.2)) row

/-- User function for the claim C9 theorems: tags its first argument, so
the output shows which value the function was applied to. -/
def c9func : Row → PyVal :=
  fun vs => PyVal.pairV (PyVal.strV "res") (vs.headD PyVal.noneV)

/-! ### brewery/base/iterator.py : aggregation (claim C8) -/

/-- Embeds `agg_sum` (source lines 424 to 425). -/
def agg_sum (a value : PyVal) : Except PyErr PyVal := pyAdd a value

/-- Embeds `agg_average` (source lines 427 to 428): the accumulator is a
(count, running sum) pair. -/
def agg_average (a value : PyVal) : Except PyErr PyVal :=
  match a with
  | .pairV c s => do
    let c2 ← pyAdd c (PyVal.intV 1)
    let s2 ← pyAdd s value
    pure (PyVal.pairV c2 s2)
  | _ => .error (.typeError "object is not subscriptable")

/-- Embeds `agg_average_finalize` (source lines 430 to 431): running sum
divided by count. -/
def agg_average_finalize (a : PyVal) : Except PyErr PyVal :=
  match a with
  | .pairV c s => pyDiv s c
  | _ => .error (.typeError "object is not subscriptable")

/-- Embeds the named tuple `AggregationFunction` (source lines 433 to
434). -/
structure AggregationFunction where
  func : PyVal → PyVal → Except PyErr PyVal
  start : PyVal
  finalize : Option (PyVal → Except PyErr PyVal)

/-- Embeds the `aggregation_functions` dict (source lines 435 to 440),
including the fixed start value 0 for `min` and `max`. -/
def aggregation_functions (name : String) : Option AggregationFunction :=
  if name = "sum" then
    some { func := agg_sum, start := PyVal.intV 0, finalize := Option.none }
  else if name = "min" then
    some { func := fun a b => .ok (pyMin a b), start := PyVal.intV 0,
           finalize := Option.none }
  else if name = "max" then
    some { func := fun a b => .ok (pyMax a b), start := PyVal.intV 0,
           finalize := Option.none }
  else if name = "average" then
    some { func := agg_average, start := PyVal.pairV (PyVal.intV 0) (PyVal.intV 0),
           finalize := some agg_average_finalize }
  else
    Option.none

/-- Measure arguments of `aggregate`: a bare field (aggregated with
"sum") or a `(field, function)` pair. -/
inductive Measure where
  | bare (field : String) : Measure
  | withFunc (field : String) (func : String) : Measure

/-- Measure normalization of `aggregate` (source lines 467 to 479): each
measure becomes a `(field, index, function)` triple.  The set
`measure_fields` collected alongside is never read again and is
omitted. -/
def measureAggregates (fields : List String) (measures : List Measure) :
    Except PyErr (List (String × Nat × String)) :=
  measures.mapM (fun m =>
    match m with
    | .bare f => do
      let i ← namesIndex fields f
      pure (f, i, "sum")
    | .withFunc f g => do
      let i ← namesIndex fields f
      pure (f, i, g))

/-- Accumulator creation for a new key (source lines 500 to 509): the
start value of each measure's function, plus a 0 count slot when
requested. -/
def newKeyAggregate (mas : List (String × Nat × String)) (include_count : Bool) :
    Except PyErr (List PyVal) := do
  let starts ← mas.mapM (fun p =>
    match aggregation_functions p.2.2 with
    | some af => pure af.start
    | Option.none => .error (.keyError p.2.2))
  pure (if include_count then starts ++ [PyVal.intV 0] else starts)

/-- Measure update loop for one row (source lines 511 to 513): the i-th
accumulator becomes the i-th function applied to it and to the row value
at the measure's field index. -/
def applyMeasures (row : Row) :
    List (String × Nat × String) → List PyVal → Except PyErr (List PyVal)
  | [], rest => .ok rest
  | _ :: _, [] => .error (.indexError "list assignment index out of range")
  | (_, index, function) :: mas, a :: rest => do
    let af ←
      match aggregation_functions function with
      | some af => pure af
      | Option.none => .error (.keyError function)
    let v ← pyGet row index
    let a2 ← af.func a v
    let rest2 ← applyMeasures row mas rest
    pure (a2 :: rest2)

/-- Count update `key_aggregate[-1] += 1` (source lines 515 to 516). -/
def incrLast : List PyVal → Except PyErr (List PyVal)
  | [] => .error (.indexError "list index out of range")
  | [a] => do
    let a2 ← pyAdd a (PyVal.intV 1)
    pure [a2]
  | a :: rest => do
    let rest2 ← incrLast rest
    pure (a :: rest2)

/-- Python `lst[-1]` on the accumulator list (source line 532). -/
def lastElem : List PyVal → Except PyErr PyVal
  | [] => .error (.indexError "list index out of range")
  | [a] => .ok a
  | _ :: rest => lastElem rest

/-- Input-consumption loop of `aggregate` (source lines 492 to 516): key
extraction via the positional mask, accumulator creation on first sight,
measure updates, count update.  The Python set `keys` is modelled as an
insertion-ordered list of the distinct key tuples (the source iterates
the set in an unspecified order; this model fixes one). -/
def aggregateLoop (mas : List (String × Nat × String))
    (key_selectors : List Bool) (include_count : Bool) :
    List Row → List (List PyVal) → List (List PyVal × List PyVal) →
    Except PyErr (List (List PyVal) × List (List PyVal × List PyVal))
  | [], keys, aggregates => .ok (keys, aggregates)
  | row :: rest, keys, aggregates => do
    let key := compress row key_selectors
    let (keys2, key_aggregate) ←
      match alookup aggregates key with
      | some ka => pure (keys, ka)
      | Option.none => do
        let ka ← newKeyAggregate mas include_count
        pure (keys ++ [key], ka)
    let ka2 ← applyMeasures row mas key_aggregate
    let ka3 ← if include_count then incrLast ka2 else pure ka2
    aggregateLoop mas key_selectors include_count rest keys2
      (dictSet aggregates key ka3)

/-- Python dict indexing `aggregation_functions[function]` (source lines
504, 512, 525): the table entry, or a KeyError. -/
def lookupAgg (function : String) : Except PyErr AggregationFunction :=
  match aggregation_functions function with
  | some af => .ok af
  | Option.none => .error (.keyError function)

/-- The `if finalize: ... else: ...` dispatch of the output loop (source
lines 526 to 529). -/
def runFinalize (af : AggregationFunction) (aggregate : PyVal) :
    Except PyErr PyVal :=
  match af.finalize with
  | some fin => fin aggregate
  | Option.none => .ok aggregate

/-- Finalized measure values of one key, in request order (source lines
523 to 529): the i-th accumulator, finalized when the function has a
finalizer. -/
def finalizeMeasures (key_aggregate : List PyVal) :
    List (String × Nat × String) → Nat → Except PyErr (List PyVal)
  | [], _ => .ok []
  | (_, _, function) :: mas, i =>
    pyGet key_aggregate i >>= fun aggregate =>
    lookupAgg function >>= fun af =>
    runFinalize af aggregate >>= fun v =>
    finalizeMeasures key_aggregate mas (i + 1) >>= fun rest =>
    pure (v :: rest)

/-- Output row of one key (source lines 519 to 534): key values, then
each measure's finalized value in request order, then the count when
requested. -/
def finalizeRow (mas : List (String × Nat × String)) (include_count : Bool)
    (key : List PyVal) (key_aggregate : List PyVal) : Except PyErr Row := do
  let vals ← finalizeMeasures key_aggregate mas 0
  if include_count then do
    let c ← lastElem key_aggregate
    pure (key ++ vals ++ [c])
  else
    pure (key ++ vals)

/-- Output loop of `aggregate` (source lines 519 to 534): one row per
distinct key. -/
def aggregateOutput (mas : List (String × Nat × String)) (include_count : Bool)
    (aggregates : List (List PyVal × List PyVal)) :
    List (List PyVal) → Except PyErr (List Row)
  | [] => .ok []
  | key :: keys => do
    let key_aggregate ←
      match alookup aggregates key with
      | some ka => pure ka
      | Option.none => .error (.keyError "aggregation key")
    let row ← finalizeRow mas include_count key key_aggregate
    let rest ← aggregateOutput mas include_count aggregates keys
    pure (row :: rest)

/-- Embeds `aggregate` (source lines 442 to 534).  `key_selectors` is the
positional mask of the key fields, or the empty list when no key fields
are given (then `itertools.compress` selects nothing and every row gets
the empty key). -/
def aggregate (iterator : List Row) (fields : List String)
    (key_fields : List String) (measures : List Measure)
    (include_count : Bool := true) : Except PyErr (List Row) := do
  let measure_aggregates ← measureAggregates fields measures
  let key_selectors := if key_fields ≠ [] then maskOf fields key_fields else []
  let state ← aggregateLoop measure_aggregates key_selectors include_count
    iterator [] []
  aggregateOutput measure_aggregates include_count state.2 state.1

/-! ### Theorems for claims C2, C3, C4, C5 -/

/-- Claim C2 fails as stated: appending a field whose name "a" is already
present succeeds with no error at all — the list grows to length two, the
name occurs twice in `_field_names`, and no `DuplicateFieldError` is
raised. -/
theorem claim_C2_counterexample :
    (FieldList.empty.appendField { name := "a" }).append (FSpec.strF "a") =
      Except.ok
        { _fields := [{ name := "a" }, { name := "a" }],
          _field_dict := [("a", { name := "a" })],
          _field_names := ["a", "a"] } ∧
    isDuplicateFieldError
      ((FieldList.empty.appendField { name := "a" }).append (FSpec.strF "a")) = false := by
  decide

/-- Claim C2 (amended): `FieldList.append` performs no duplicate-name
check.  Appending a string spec whose name is already present succeeds,
appending the new field: the length grows by one, the name is appended to
`_field_names` (so it now occurs twice), and no `DuplicateFieldError` is
raised. -/
theorem claim_C2_append_duplicate_succeeds (fl : FieldList) (s : String)
    (_dup : s ∈ fl._field_names) :
    fl.append (FSpec.strF s) = Except.ok (fl.appendField { name := s }) ∧
    (fl.appendField { name := s })._field_names = fl._field_names ++ [s] ∧
    (fl.appendField { name := s })._fields.length = fl._fields.length + 1 ∧
    isDuplicateFieldError (fl.append (FSpec.strF s)) = false := by
  refine ⟨rfl, rfl, by simp [FieldList.appendField], rfl⟩

/-- Witness for claim C2: the amended theorem applied to a concrete list
already containing the name "a". -/
theorem claim_C2_witness :
    ((FieldList.empty.appendField { name := "a" }).appendField { name := "a" })._field_names
      = (FieldList.empty.appendField { name := "a" })._field_names ++ ["a"] :=
  (claim_C2_append_duplicate_succeeds
    (FieldList.empty.appendField { name := "a" }) "a" (by decide)).2.1

/-- Claim C3 fails as stated: looking up the absent name "b" raises a
builtin KeyError, not an `UnknownFieldError`. -/
theorem claim_C3_counterexample :
    (FieldList.empty.appendField { name := "a" }).index (FieldRef.byName "b") =
      Except.error (PyErr.keyError "Field list has no field with name b") ∧
    isUnknownFieldError
      ((FieldList.empty.appendField { name := "a" }).index (FieldRef.byName "b")) = false := by
  decide

/-- Helper for claim C3: in a duplicate-free list of names, searching for
the name at position `i` finds exactly position `i`. -/
theorem findIdx_get_of_nodup :
    ∀ (l : List String) (i : Nat) (h : i < l.length), l.Nodup →
      l.findIdx? (fun n => n = l.get ⟨i, h⟩) = some i := by
  intro l
  induction l with
  | nil => intro i h; cases h
  | cons x xs ih =>
    intro i h hnd
    cases i with
    | zero => simp [List.findIdx?_cons]
    | succ j =>
      have hj : j < xs.length := Nat.lt_of_succ_lt_succ h
      have hget : (x :: xs).get ⟨j + 1, h⟩ = xs.get ⟨j, hj⟩ := rfl
      have hmem : xs.get ⟨j, hj⟩ ∈ xs := xs.get_mem _ _
      have hx : ¬(x = xs.get ⟨j, hj⟩) := by
        intro hcontra
        exact (List.nodup_cons.mp hnd).1 (hcontra ▸ hmem)
      rw [hget]
      have h2 := ih j hj (List.nodup_cons.mp hnd).2
      simp only [List.get_eq_getElem] at h2 hx
      simp [List.findIdx?_cons, List.findIdx?_succ, hx, h2]

/-- Claim C3 (amended): `FieldList.index` on a name not present fails with
a builtin KeyError (carrying the name in its message), not with
`UnknownFieldError`; on a name present in a duplicate-free list it returns
that field's position. -/
theorem claim_C3_index_behaviour (fl : FieldList) :
    (∀ n : String, n ∉ fl._field_names →
      fl.index (FieldRef.byName n) =
        Except.error (PyErr.keyError ("Field list has no field with name " ++ n))) ∧
    (∀ (i : Nat) (h : i < fl._field_names.length), fl._field_names.Nodup →
      fl.index (FieldRef.byName (fl._field_names.get ⟨i, h⟩)) = Except.ok i) := by
  constructor
  · intro n hn
    have hnone : fl._field_names.findIdx? (fun m => decide (m = n)) = Option.none := by
      rw [List.findIdx?_eq_none_iff]
      intro x hx
      simp only [decide_eq_false_iff_not]
      intro hcontra
      exact hn (hcontra ▸ hx)
    show (match fl._field_names.findIdx? (fun m => decide (m = n)) with
          | some i => Except.ok i
          | Option.none =>
            Except.error (PyErr.keyError ("Field list has no field with name " ++ n))) =
        Except.error (PyErr.keyError ("Field list has no field with name " ++ n))
    rw [hnone]
  · intro i h hnd
    have hfind := findIdx_get_of_nodup fl._field_names i h hnd
    show (match fl._field_names.findIdx?
            (fun m => decide (m = fl._field_names.get ⟨i, h⟩)) with
          | some k => Except.ok k
          | Option.none =>
            Except.error (PyErr.keyError
              ("Field list has no field with name " ++ fl._field_names.get ⟨i, h⟩))) =
        Except.ok i
    rw [hfind]

/-- Witness for claim C3: both directions of the amended theorem on a
concrete one-field list. -/
theorem claim_C3_witness :
    (FieldList.empty.appendField { name := "a" }).index (FieldRef.byName "b") =
      Except.error (PyErr.keyError ("Field list has no field with name " ++ "b")) ∧
    (FieldList.empty.appendField { name := "a" }).index
        (FieldRef.byName ((FieldList.empty.appendField { name := "a" })._field_names.get
          ⟨0, by decide⟩)) = Except.ok 0 :=
  ⟨(claim_C3_index_behaviour (FieldList.empty.appendField { name := "a" })).1 "b" (by decide),
   (claim_C3_index_behaviour (FieldList.empty.appendField { name := "a" })).2 0 (by decide)
     (by decide)⟩

/-- Claim C4: the derivation of the default analytical type never happens.
A `(name, storage_type)` tuple and a dict without an `analytical_type` key
both produce a field whose analytical type is the preset "typeless", even
though the own default table of class `Field` maps "integer" to "discrete"
and "float" to "range" — the branch that would consult that table is
unreachable, because `FieldList.append` seeds the dict `d` with
`analytical_type` before examining the spec. -/
theorem claim_C4_default_analytical_type_dead :
    fieldlist [FSpec.tupF ["amount", "integer"]] =
      Except.ok (FieldList.empty.appendField
        { name := "amount", storage_type := "integer", analytical_type := "typeless" }) ∧
    fieldlist [FSpec.dictF { name := some "price", storage_type := some "float" }] =
      Except.ok (FieldList.empty.appendField
        { name := "price", storage_type := "float", analytical_type := "typeless" }) ∧
    alookup Field.default_analytical_type "integer" = some "discrete" ∧
    alookup Field.default_analytical_type "float" = some "range" := by
  decide

/-- Helper for claim C5: the fold underlying `FieldMap.map` appends
exactly the per-claim specification `fieldMapSpec` to any accumulator. -/
theorem fieldMap_mapStep_foldl (fm : FieldMap) :
    ∀ (fields : List Field) (acc : FieldList),
      (fields.foldl fm.mapStep acc)._fields = acc._fields ++ fieldMapSpec fm fields ∧
      (fields.foldl fm.mapStep acc)._field_names =
        acc._field_names ++ (fieldMapSpec fm fields).map Field.name := by
  intro fields
  induction fields with
  | nil => intro acc; simp [fieldMapSpec]
  | cons f fs ih =>
    intro acc
    by_cases hdrop : f.name ∈ fm.drop
    · have hstep : fm.mapStep acc f = acc := by
        simp [FieldMap.mapStep, hdrop]
      have hspec : fieldMapSpec fm (f :: fs) = fieldMapSpec fm fs := by
        simp [fieldMapSpec, hdrop]
      rw [List.foldl_cons, hstep, hspec]
      exact ih acc
    · have hstep : fm.mapStep acc f =
          acc.appendField
            (match alookup fm.rename f.name with
             | some n => { f with name := n }
             | Option.none => f) := by
        simp [FieldMap.mapStep, hdrop]
      have hspec : fieldMapSpec fm (f :: fs) =
          (match alookup fm.rename f.name with
           | some n => { f with name := n }
           | Option.none => f) :: fieldMapSpec fm fs := by
        simp [fieldMapSpec, hdrop]
      rw [List.foldl_cons, hstep, hspec]
      obtain ⟨ih1, ih2⟩ := ih (acc.appendField _)
      rw [ih1, ih2]
      simp [FieldList.appendField]

/-- Claim C5: `FieldMap.map` produces, in input order, the fields not in
the drop set, with mapped fields renamed and all their other attributes
preserved; a field both renamed and dropped is dropped (the drop test uses
the original name).  `fieldMapSpec` is the claim restated as
filter-then-rename, and the name index of the result agrees with it. -/
theorem claim_C5_fieldmap_map (fm : FieldMap) (fields : List Field) :
    (fm.map fields)._fields = fieldMapSpec fm fields ∧
    (fm.map fields)._field_names = (fieldMapSpec fm fields).map Field.name := by
  have h := fieldMap_mapStep_foldl fm fields FieldList.empty
  simpa [FieldMap.map, FieldList.empty] using h

/-! ### Theorems for claim C6 -/

/-- Helper for claim C6: the fold underlying `FieldList.copy` reproduces
the original reference list. -/
theorem copy_fold_fields (h : Heap) :
    ∀ (rs : List Nat) (acc : FieldListR),
      (rs.foldl (fun out r => out.appendRef h r) acc)._fields = acc._fields ++ rs := by
  intro rs
  induction rs with
  | nil => intro acc; simp
  | cons r rs ih =>
    intro acc
    rw [List.foldl_cons, ih]
    simp [FieldListR.appendRef]

/-- Claim C6 fails as stated: the copy shares its Field objects with the
original (same reference 0), so mutating the label of the copy's contained
Field changes the original's observable fields. -/
theorem claim_C6_counterexample :
    (FieldListR.copy c6Heap c6F)._fields = c6F._fields ∧
    observe (c6Heap.setField 0 { name := "a", label := some "x" }) c6F ≠
      observe c6Heap c6F := by
  exact ⟨rfl, by decide⟩

/-- Claim C6 (amended): `FieldList.copy` is independent at the list level
but shares the Field objects.  The copy holds exactly the original's
references; allocating a new Field (as appending a fresh spec to the copy
does) or mutating a Field not contained in the original leaves the
original observationally unchanged; but mutating a contained — hence
shared — Field object changes the original's observation. -/
theorem claim_C6_copy_sharing (h : Heap) (fl : FieldListR)
    (hvalid : ∀ r ∈ fl._fields, r < h.next) :
    (FieldListR.copy h fl)._fields = fl._fields ∧
    (∀ f : Field, observe (h.alloc f).1 fl = observe h fl) ∧
    (∀ (r : Nat) (f : Field), r ∉ fl._fields →
      observe (h.setField r f) fl = observe h fl) ∧
    (∀ (r : Nat) (f : Field), r ∈ fl._fields → h.store r ≠ f →
      observe (h.setField r f) fl ≠ observe h fl) := by
  refine ⟨?_, ?_, ?_, ?_⟩
  · have hc := copy_fold_fields h fl._fields FieldListR.empty
    simpa [FieldListR.copy, FieldListR.empty] using hc
  · intro f
    apply List.map_congr_left
    intro r hr
    have hne : r ≠ h.next := Nat.ne_of_lt (hvalid r hr)
    simp [Heap.alloc, hne]
  · intro r f hnot
    apply List.map_congr_left
    intro x hx
    have hne : x ≠ r := fun hc => hnot (hc ▸ hx)
    simp [Heap.setField, hne]
  · intro r f hmem hne hEq
    have hagree := List.map_eq_map_iff.mp hEq r hmem
    simp [Heap.setField] at hagree
    exact hne hagree.symm

/-- Witness for claim C6: the amended theorem at the concrete heap, with
the shared-mutation conjunct instantiated at the shared reference 0. -/
theorem claim_C6_witness :
    (FieldListR.copy c6Heap c6F)._fields = c6F._fields ∧
    observe (c6Heap.setField 0 { name := "a", label := some "x" }) c6F ≠
      observe c6Heap c6F :=
  ⟨(claim_C6_copy_sharing c6Heap c6F (by decide)).1,
   (claim_C6_copy_sharing c6Heap c6F (by decide)).2.2.2 0
     { name := "a", label := some "x" } (by decide) (by decide)⟩

/-! ### Theorems for claim C7 -/

/-- Unfolding equation for `firstSeenRows` at a cons cell. -/
theorem firstSeenRows_cons (keyOf : Row → Row) (r : Row) (rs : List Row) :
    firstSeenRows keyOf (r :: rs) =
      r :: firstSeenRows keyOf (rs.filter (fun q => decide (keyOf q ≠ keyOf r))) := by
  rw [firstSeenRows]

/-- Helper for claim C7: the seen-set loop equals the specification-side
first-seen recursion, applied to the rows whose keys are not yet seen. -/
theorem distinctLoop_eq_firstSeen (keyOf : Row → Row) :
    ∀ (rows seen : List Row),
      distinctLoop keyOf seen rows =
        firstSeenRows keyOf (rows.filter (fun r => decide (keyOf r ∉ seen))) := by
  intro rows
  induction rows with
  | nil => intro seen; simp [distinctLoop, firstSeenRows]
  | cons row rest ih =>
    intro seen
    by_cases hmem : keyOf row ∈ seen
    · have hL : distinctLoop keyOf seen (row :: rest) =
          distinctLoop keyOf seen rest := by
        simp [distinctLoop, hmem]
      have hR : (row :: rest).filter (fun r => decide (keyOf r ∉ seen)) =
          rest.filter (fun r => decide (keyOf r ∉ seen)) := by
        simp [hmem]
      rw [hL, hR, ih seen]
    · have hL : distinctLoop keyOf seen (row :: rest) =
          row :: distinctLoop keyOf (keyOf row :: seen) rest := by
        simp [distinctLoop, hmem]
      have hR : (row :: rest).filter (fun r => decide (keyOf r ∉ seen)) =
          row :: rest.filter (fun r => decide (keyOf r ∉ seen)) := by
        simp [hmem]
      have hfilters :
          (rest.filter (fun r => decide (keyOf r ∉ seen))).filter
              (fun q => decide (keyOf q ≠ keyOf row)) =
            rest.filter (fun r => decide (keyOf r ∉ keyOf row :: seen)) := by
        rw [List.filter_filter]
        apply List.filter_congr
        intro a _
        by_cases h1 : keyOf a = keyOf row
        · simp [h1]
        · by_cases h2 : keyOf a ∈ seen <;> simp [h1, h2]
      rw [hL, hR, firstSeenRows_cons, hfilters, ih (keyOf row :: seen)]

/-- Helper for claim C7: every row the loop emits has an unseen key, and
the emitted keys are pairwise distinct. -/
theorem distinctLoop_keys_nodup (keyOf : Row → Row) :
    ∀ (rows seen : List Row),
      (∀ r ∈ distinctLoop keyOf seen rows, keyOf r ∉ seen) ∧
      ((distinctLoop keyOf seen rows).map keyOf).Nodup := by
  intro rows
  induction rows with
  | nil => intro seen; simp [distinctLoop]
  | cons row rest ih =>
    intro seen
    by_cases hmem : keyOf row ∈ seen
    · simpa [distinctLoop, hmem] using ih seen
    · obtain ⟨ihdisj, ihnd⟩ := ih (keyOf row :: seen)
      have hL : distinctLoop keyOf seen (row :: rest) =
          row :: distinctLoop keyOf (keyOf row :: seen) rest := by
        simp [distinctLoop, hmem]
      rw [hL]
      constructor
      · intro r hr
        rcases List.mem_cons.mp hr with hr | hr
        · exact hr ▸ hmem
        · exact fun hc => ihdisj r hr (List.mem_cons_of_mem _ hc)
      · rw [List.map_cons, List.nodup_cons]
        refine ⟨?_, ihnd⟩
        intro hc
        obtain ⟨r, hr, hkr⟩ := List.mem_map.mp hc
        exact ihdisj r hr (hkr ▸ List.mem_cons_self _ _)

/-- Helper for claim C7: on a stream whose key tuples are pairwise
distinct and disjoint from the seen set, the loop is the identity. -/
theorem distinctLoop_id_of_nodup (keyOf : Row → Row) :
    ∀ (rows seen : List Row), ((rows.map keyOf).Nodup) →
      (∀ r ∈ rows, keyOf r ∉ seen) → distinctLoop keyOf seen rows = rows := by
  intro rows
  induction rows with
  | nil => intro seen _ _; simp [distinctLoop]
  | cons row rest ih =>
    intro seen hnd hdisj
    have hmem : keyOf row ∉ seen := hdisj row (List.mem_cons_self _ _)
    have hhead : keyOf row ∉ rest.map keyOf := (List.nodup_cons.mp (by simpa using hnd)).1
    have htail : (rest.map keyOf).Nodup := (List.nodup_cons.mp (by simpa using hnd)).2
    have hstep : distinctLoop keyOf seen (row :: rest) =
        row :: distinctLoop keyOf (keyOf row :: seen) rest := by
      simp [distinctLoop, hmem]
    rw [hstep, ih (keyOf row :: seen) htail]
    intro r hr
    rw [List.mem_cons]
    rintro (hc | hc)
    · exact hhead (hc ▸ List.mem_map_of_mem keyOf hr)
    · exact hdisj r (List.mem_cons_of_mem _ hr) hc

/-- Claim C7: unsorted `distinct` yields exactly the first-seen row per
unique key tuple (stated via the independent recursion `firstSeenRows`),
and applying unsorted `distinct` to its own output with the same keys
returns that output unchanged (idempotence). -/
theorem claim_C7_distinct_firstseen_idempotent (rows : List Row)
    (fields keys : List String) :
    distinct rows fields keys false =
      Except.ok (firstSeenRows (applyPositions (keepPositions fields keys)) rows) ∧
    distinct (distinctLoop (applyPositions (keepPositions fields keys)) [] rows)
        fields keys false =
      Except.ok (distinctLoop (applyPositions (keepPositions fields keys)) [] rows) := by
  constructor
  · have h := distinctLoop_eq_firstSeen (applyPositions (keepPositions fields keys)) rows []
    simp only [List.not_mem_nil, not_false_eq_true, decide_True,
      List.filter_true] at h
    simp [distinct, h]
  · obtain ⟨hdisj, hnd⟩ :=
      distinctLoop_keys_nodup (applyPositions (keepPositions fields keys)) rows []
    have hid := distinctLoop_id_of_nodup (applyPositions (keepPositions fields keys))
      (distinctLoop (applyPositions (keepPositions fields keys)) [] rows) [] hnd
      (by intro r _; exact List.not_mem_nil _)
    simp [distinct, hid]

/-! ### Theorems for claim C1 -/

/-- Reduction of an Except bind whose first component succeeded. -/
theorem ok_bind {α β : Type} (a : α) (f : α → Except PyErr β) :
    (Except.ok a >>= f) = f a := rfl

/-- Inversion of a successful Except bind. -/
theorem bind_ok_inv {α β : Type} {e : Except PyErr α} {f : α → Except PyErr β}
    {b : β} (h : (e >>= f) = Except.ok b) :
    ∃ a, e = Except.ok a ∧ f a = Except.ok b := by
  cases e with
  | ok a => exact ⟨a, rfl, h⟩
  | error err => exact Except.noConfusion h

/-- Python list indexing succeeds in bounds, returning the positional
value. -/
theorem pyGet_ok (row : Row) (i : Nat) (h : i < row.length) :
    pyGet row i = Except.ok (row.getD i PyVal.noneV) := by
  have h1 : row.get? i = some (row.get ⟨i, h⟩) := List.get?_eq_get h
  simp [pyGet, h1, List.getD_eq_getElem?_getD, List.getElem?_eq_getElem h]

/-- Helper for claim C1: in-bounds detail maps build successfully and
equal the total specification-side map. -/
theorem buildDetailDict_ok (j : Nat) :
    ∀ (detail : List Row) (d : List (PyVal × Row)),
      (∀ row ∈ detail, j < row.length) →
      buildDetailDict j detail d =
        Except.ok (detail.foldl
          (fun d2 row => dictSet d2 (row.getD j PyVal.noneV) row) d) := by
  intro detail
  induction detail with
  | nil => intro d _; rfl
  | cons row rest ih =>
    intro d hb
    have hj : j < row.length := hb row (List.mem_cons_self _ _)
    show (pyGet row j >>= fun key => buildDetailDict j rest (dictSet d key row)) = _
    rw [pyGet_ok row j hj, ok_bind,
      ih (dictSet d (row.getD j PyVal.noneV) row)
        (fun r hr => hb r (List.mem_cons_of_mem _ hr))]
    rfl

/-- Helper for claim C1: all detail maps build successfully under the
in-bounds hypothesis. -/
theorem buildMaps_ok :
    ∀ (pairs : List (List Row × (Nat × Nat))),
      (∀ p ∈ pairs, ∀ row ∈ p.1, p.2.2 < row.length) →
      buildMaps pairs =
        Except.ok (pairs.map (fun p => detailDictPure p.1 p.2.2)) := by
  intro pairs
  induction pairs with
  | nil => intro _; rfl
  | cons p rest ih =>
    intro hb
    obtain ⟨detail, join⟩ := p
    show (buildDetailDict join.2 detail [] >>= fun detail_dict =>
      buildMaps rest >>= fun maps => pure (detail_dict :: maps)) = _
    rw [buildDetailDict_ok join.2 detail []
        (fun r hr => hb (detail, join) (List.mem_cons_self _ _) r hr),
      ok_bind, ih (fun q hq => hb q (List.mem_cons_of_mem _ hq)), ok_bind]
    rfl

/-- Helper for claim C1: a left fold that appends chunks can start from
the empty accumulator. -/
theorem foldl_append_shift {β : Type} (g : β → Row) :
    ∀ (l : List β) (acc : Row),
      l.foldl (fun a p => a ++ g p) acc =
        acc ++ l.foldl (fun a p => a ++ g p) [] := by
  intro l
  induction l with
  | nil => intro acc; simp
  | cons x xs ih =>
    intro acc
    rw [List.foldl_cons, List.foldl_cons, ih, ih (List.nil ++ g x)]
    simp

/-- Helper for claim C1: the inner detail-map loop of one master row
yields the fully extended row exactly when every map matches, and nothing
when any map misses. -/
theorem joinOne_spec (mrow : Row) :
    ∀ (pairs : List (List (PyVal × Row) × (Nat × Nat))) (acc : Row),
      (∀ p ∈ pairs, p.2.1 < mrow.length) →
      joinOne mrow pairs acc =
        Except.ok
          (if pairs.all
              (fun p => (alookup p.1 (mrow.getD p.2.1 PyVal.noneV)).isSome) then
            some (pairs.foldl
              (fun a p => a ++ (alookup p.1 (mrow.getD p.2.1 PyVal.noneV)).getD [])
              acc)
          else Option.none) := by
  intro pairs
  induction pairs with
  | nil => intro acc _; rfl
  | cons p rest ih =>
    intro acc hb
    obtain ⟨detail, join⟩ := p
    have hj : join.1 < mrow.length := hb (detail, join) (List.mem_cons_self _ _)
    show (pyGet mrow join.1 >>= fun key =>
      match alookup detail key with
      | some detail_row => joinOne mrow rest (acc ++ detail_row)
      | Option.none => .ok Option.none) = _
    rw [pyGet_ok mrow join.1 hj]
    simp only [ok_bind]
    cases hlook : alookup detail (mrow.getD join.1 PyVal.noneV) with
    | none =>
      simp only [List.all_cons, hlook, Option.isSome_none, Bool.false_and]
      rfl
    | some detail_row =>
      show joinOne mrow rest (acc ++ detail_row) = _
      rw [ih (acc ++ detail_row) (fun q hq => hb q (List.mem_cons_of_mem _ hq))]
      simp only [List.all_cons, hlook, Option.isSome_some, Bool.true_and,
        List.foldl_cons, Option.getD_some]

/-- Helper for claim C1: the master loop filters by all-maps-match and
extends each surviving row. -/
theorem joinMasterLoop_spec (maps : List (List (PyVal × Row)))
    (joins : List (Nat × Nat)) :
    ∀ (master : List Row),
      (∀ mrow ∈ master, ∀ p ∈ maps.zip joins, p.2.1 < mrow.length) →
      joinMasterLoop maps joins master =
        Except.ok ((master.filter (allMatch maps joins)).map
          (extendRow maps joins)) := by
  intro master
  induction master with
  | nil => intro _; rfl
  | cons mrow rest ih =>
    intro hb
    show (joinOne mrow (maps.zip joins) mrow >>= fun row? =>
      joinMasterLoop maps joins rest >>= fun rest2 =>
      match row? with
      | some row => pure (row :: rest2)
      | Option.none => pure rest2) = _
    rw [joinOne_spec mrow (maps.zip joins) mrow
        (fun p hp => hb mrow (List.mem_cons_self _ _) p hp)]
    simp only [ok_bind]
    rw [ih (fun m hm p hp => hb m (List.mem_cons_of_mem _ hm) p hp)]
    simp only [ok_bind]
    by_cases hm : allMatch maps joins mrow
    · have hmb : (maps.zip joins).all
          (fun p => (alookup p.1 (mrow.getD p.2.1 PyVal.noneV)).isSome) = true := hm
      rw [if_pos hmb, List.filter_cons_of_pos hm, List.map_cons]
      have hext : (maps.zip joins).foldl
          (fun a p => a ++ (alookup p.1 (mrow.getD p.2.1 PyVal.noneV)).getD [])
          mrow = extendRow maps joins mrow := by
        rw [foldl_append_shift]; rfl
      rw [hext]
      rfl
    · have hmb : ¬((maps.zip joins).all
          (fun p => (alookup p.1 (mrow.getD p.2.1 PyVal.noneV)).isSome) = true) := hm
      rw [if_neg hmb, List.filter_cons_of_neg (by simpa using hm)]
      rfl

/-- Claim C1: under the conditions the source itself demands (a non-empty
detail list, one join spec per detail, key positions in range),
`left_inner_join` emits exactly the master rows for which every detail
map contains a match — each extended with the matched detail row from
every map, in order — and omits every master row whose key misses any
detail map. -/
theorem claim_C1_left_inner_join (master : List Row) (details : List (List Row))
    (joins : List (Nat × Nat))
    (hne : details ≠ [])
    (hlen : details.length = joins.length)
    (hdetail : ∀ p ∈ details.zip joins, ∀ row ∈ p.1, p.2.2 < row.length)
    (hmaster : ∀ mrow ∈ master, ∀ j ∈ joins, j.1 < mrow.length) :
    left_inner_join master details joins =
      Except.ok ((master.filter
          (allMatch ((details.zip joins).map (fun p => detailDictPure p.1 p.2.2))
            joins)).map
        (extendRow ((details.zip joins).map (fun p => detailDictPure p.1 p.2.2))
          joins)) := by
  unfold left_inner_join
  rw [if_neg hne, if_neg (by omega)]
  rw [buildMaps_ok (details.zip joins) hdetail, ok_bind]
  apply joinMasterLoop_spec
  intro mrow hm p hp
  have hji : p.2 ∈ joins := (List.of_mem_zip hp).2
  exact hmaster mrow hm p.2 hji

/-- Witness for claim C1: one master stream keyed at position 0 against
one detail stream keyed at position 0; the master row with key 1 matches
and is extended, the master row with key 2 misses and is omitted. -/
theorem claim_C1_witness :
    left_inner_join [[PyVal.intV 1, PyVal.strV "x"], [PyVal.intV 2, PyVal.strV "y"]]
      [[[PyVal.intV 1, PyVal.strV "d"]]] [(0, 0)] =
    Except.ok [[PyVal.intV 1, PyVal.strV "x", PyVal.intV 1, PyVal.strV "d"]] :=
  (claim_C1_left_inner_join
    [[PyVal.intV 1, PyVal.strV "x"], [PyVal.intV 2, PyVal.strV "y"]]
    [[[PyVal.intV 1, PyVal.strV "d"]]] [(0, 0)]
    (by decide) (by decide) (by decide) (by decide)).trans (by decide)

/-! ### Theorems for claim C8 -/

/-- Helper for claim C8: the finalized measure list has one value per
requested measure. -/
theorem finalizeMeasures_length (ka : List PyVal) :
    ∀ (mas : List (String × Nat × String)) (i : Nat) (vals : List PyVal),
      finalizeMeasures ka mas i = Except.ok vals → vals.length = mas.length := by
  intro mas
  induction mas with
  | nil =>
    intro i vals h
    cases h
    rfl
  | cons m mas ih =>
    intro i vals h
    obtain ⟨mm, midx, mfn⟩ := m
    simp only [finalizeMeasures] at h
    obtain ⟨aggregate, _, h⟩ := bind_ok_inv h
    obtain ⟨af, _, h⟩ := bind_ok_inv h
    obtain ⟨v, _, h⟩ := bind_ok_inv h
    obtain ⟨rest, hrest, h⟩ := bind_ok_inv h
    cases h
    simp [ih (i + 1) rest hrest]

/-- Claim C8: the concrete aggregation example of the specification holds
with the model's (insertion) key order, and in general a successful
per-key output row is the key values, then one finalized value per
requested measure in request order, then the count — the accumulator
list's last element. -/
theorem claim_C8_aggregate :
    (aggregate
        [[PyVal.strV "east", PyVal.intV 10], [PyVal.strV "west", PyVal.intV 5],
          [PyVal.strV "east", PyVal.intV 3]]
        ["region", "amount"] ["region"] [Measure.withFunc "amount" "sum"] true =
      Except.ok [[PyVal.strV "east", PyVal.intV 13, PyVal.intV 2],
        [PyVal.strV "west", PyVal.intV 5, PyVal.intV 1]]) ∧
    (∀ (mas : List (String × Nat × String)) (key ka : List PyVal) (row : Row),
      finalizeRow mas true key ka = Except.ok row →
      row.take key.length = key ∧
      row.length = key.length + mas.length + 1 ∧
      row.getLast? = (lastElem ka).toOption) := by
  constructor
  · decide
  · intro mas key ka row h
    obtain ⟨vals, hvals, h⟩ := bind_ok_inv h
    have h2 : (lastElem ka >>= fun c =>
        (pure (key ++ vals ++ [c]) : Except PyErr Row)) = Except.ok row := h
    obtain ⟨c, hc, h3⟩ := bind_ok_inv h2
    cases h3
    refine ⟨?_, ?_, ?_⟩
    · rw [List.append_assoc]
      exact List.take_left key (vals ++ [c])
    · have hlen := finalizeMeasures_length ka mas 0 vals hvals
      simp [List.length_append, hlen]
      omega
    · rw [List.getLast?_concat, hc]
      rfl

/-- Witness for claim C8: the row-shape conjunct instantiated at the
"east" group of the concrete example. -/
theorem claim_C8_witness :
    ([PyVal.strV "east", PyVal.intV 13, PyVal.intV 2] : Row).take
        ([PyVal.strV "east"] : List PyVal).length = [PyVal.strV "east"] ∧
    ([PyVal.strV "east", PyVal.intV 13, PyVal.intV 2] : Row).length =
      ([PyVal.strV "east"] : List PyVal).length +
        ([("amount", 1, "sum")] : List (String × Nat × String)).length + 1 ∧
    ([PyVal.strV "east", PyVal.intV 13, PyVal.intV 2] : Row).getLast? =
      (lastElem [PyVal.intV 13, PyVal.intV 2]).toOption :=
  claim_C8_aggregate.2 [("amount", 1, "sum")] [PyVal.strV "east"]
    [PyVal.intV 13, PyVal.intV 2] [PyVal.strV "east", PyVal.intV 13, PyVal.intV 2]
    (by decide)

/-! ### Theorems for claims C9 and C10 -/

/-- Claim C9: the compiled "function" transformation with a single source
field.  At source position 0 ("name") the compiled mapper does not apply
the user function to the row value: the truthiness test
`if self.source_index:` is false for index 0, the mask branch runs with
mask None, and the call raises TypeError.  At any truthy position
("age", position 1) the mapper returns the user function applied to the
row's value at the source position, as the claim states. -/
theorem claim_C9_function_source_position_zero :
    (compile_transformation
        [("out", TransRule.descRule { action := some "function",
                                      source := some (Sum.inl "name"),
                                      function := some c9func })]
        ["name", "age"]).bind
      (fun out => applyCompiled out [PyVal.strV "Alice", PyVal.intV 30]) =
      Except.error (PyErr.typeError "argument of type NoneType is not iterable") ∧
    (compile_transformation
        [("out", TransRule.descRule { action := some "function",
                                      source := some (Sum.inl "age"),
                                      function := some c9func })]
        ["name", "age"]).bind
      (fun out => applyCompiled out [PyVal.strV "Alice", PyVal.intV 30]) =
      Except.ok [c9func [PyVal.intV 30]] := by
  exact ⟨by decide, by decide⟩

/-- Helper for claim C10: keys of a dict after an update. -/
theorem dictSet_keys {κ α : Type} [DecidableEq κ] (d : List (κ × α)) (k : κ)
    (v : α) :
    ∀ x, x ∈ (dictSet d k v).map Prod.fst → x ∈ d.map Prod.fst ∨ x = k := by
  intro x hx
  unfold dictSet at hx
  by_cases hc : d.any (fun p => p.1 = k)
  · rw [if_pos hc] at hx
    obtain ⟨p, hp, hfst⟩ := List.mem_map.mp hx
    obtain ⟨q, hq, hqe⟩ := List.mem_map.mp hp
    by_cases hqk : q.1 = k
    · right
      rw [← hfst, ← hqe]
      simp [hqk]
    · left
      rw [← hfst, ← hqe]
      simp only [hqk]
      rw [if_neg (by simp [hqk])]
      exact List.mem_map_of_mem Prod.fst hq
  · rw [if_neg hc] at hx
    rw [List.map_append] at hx
    rcases List.mem_append.mp hx with hin | hin
    · exact Or.inl hin
    · right
      simpa using hin

/-- Helper for claim C10: a dict update grows the dict by at most one
entry. -/
theorem dictSet_length {κ α : Type} [DecidableEq κ] (d : List (κ × α)) (k : κ)
    (v : α) : (dictSet d k v).length ≤ d.length + 1 := by
  unfold dictSet
  by_cases hc : d.any (fun p => p.1 = k)
  · rw [if_pos hc]
    simp
  · rw [if_neg hc]
    simp

/-- Helper for claim C10: a successfully compiled entry either leaves the
ordered dict unchanged or stores one callable under its target. -/
theorem compileEntry_ok_cases (fields : List String)
    (out : List (String × Transformation)) (e : String × TransRule)
    (res : List (String × Transformation))
    (h : compileEntry fields out e = Except.ok res) :
    res = out ∨ ∃ t : Transformation, res = dictSet out e.1 t := by
  obtain ⟨target, rule⟩ := e
  cases rule with
  | singleton =>
    obtain ⟨t, _, h2⟩ := bind_ok_inv h
    cases h2
    exact Or.inr ⟨Transformation.copyT t, rfl⟩
  | noneRule =>
    obtain ⟨t, _, h2⟩ := bind_ok_inv h
    cases h2
    exact Or.inr ⟨Transformation.copyT t, rfl⟩
  | sourceStr s =>
    obtain ⟨t, _, h2⟩ := bind_ok_inv h
    cases h2
    exact Or.inr ⟨Transformation.copyT t, rfl⟩
  | descRule desc =>
    simp only [compileEntry] at h
    by_cases hc1 : desc.action = Option.none ∨ desc.action = some "" ∨
        desc.action = some "copy"
    · rw [if_pos hc1] at h
      obtain ⟨s, _, h2⟩ := bind_ok_inv h
      obtain ⟨t, _, h3⟩ := bind_ok_inv h2
      cases h3
      exact Or.inr ⟨Transformation.copyT t, rfl⟩
    · rw [if_neg hc1] at h
      by_cases hc2 : desc.action = some "function"
      · rw [if_pos hc2] at h
        obtain ⟨t, _, h2⟩ := bind_ok_inv h
        cases h2
        exact Or.inr ⟨Transformation.funcT t, rfl⟩
      · rw [if_neg hc2] at h
        by_cases hc3 : desc.action = some "map"
        · rw [if_pos hc3] at h
          obtain ⟨s, _, h2⟩ := bind_ok_inv h
          obtain ⟨t, _, h3⟩ := bind_ok_inv h2
          cases h3
          exact Or.inr ⟨Transformation.mapT t, rfl⟩
        · rw [if_neg hc3] at h
          by_cases hc4 : desc.action = some "set"
          · rw [if_pos hc4] at h
            cases h
            exact Or.inr ⟨Transformation.setT (desc.value.getD PyVal.noneV), rfl⟩
          · rw [if_neg hc4] at h
            cases h
            exact Or.inl rfl

/-- Helper for claim C10: every key of a successfully compiled dict comes
from the initial dict or from one of the entry targets. -/
theorem compile_keys (fields : List String) :
    ∀ (ts : List (String × TransRule))
      (init res : List (String × Transformation)),
      ts.foldlM (compileEntry fields) init = Except.ok res →
      ∀ x, x ∈ res.map Prod.fst → x ∈ init.map Prod.fst ∨ x ∈ ts.map Prod.fst := by
  intro ts
  induction ts with
  | nil =>
    intro init res h x hx
    cases h
    exact Or.inl hx
  | cons e rest ih =>
    intro init res h x hx
    rw [List.foldlM_cons] at h
    obtain ⟨mid, hmid, h2⟩ := bind_ok_inv h
    rcases ih mid res h2 x hx with hin | hin
    · rcases compileEntry_ok_cases fields init e mid hmid with hcase | ⟨t, hcase⟩
      · subst hcase
        exact Or.inl hin
      · subst hcase
        rcases dictSet_keys init e.1 t x hin with h3 | h3
        · exact Or.inl h3
        · exact Or.inr (by simp [h3])
    · exact Or.inr (List.mem_cons_of_mem _ hin)

/-- Helper for claim C10: a successfully compiled dict has at most one
entry per transformation entry beyond the initial dict. -/
theorem compile_length (fields : List String) :
    ∀ (ts : List (String × TransRule))
      (init res : List (String × Transformation)),
      ts.foldlM (compileEntry fields) init = Except.ok res →
      res.length ≤ init.length + ts.length := by
  intro ts
  induction ts with
  | nil =>
    intro init res h
    cases h
    simp
  | cons e rest ih =>
    intro init res h
    rw [List.foldlM_cons] at h
    obtain ⟨mid, hmid, h2⟩ := bind_ok_inv h
    have hmidlen : mid.length ≤ init.length + 1 := by
      rcases compileEntry_ok_cases fields init e mid hmid with hcase | ⟨t, hcase⟩
      · subst hcase; omega
      · subst hcase; exact dictSet_length init e.1 t
    have := ih mid res h2
    simp only [List.length_cons]
    omega

/-- Helper for claim C10: an entry whose rule dict carries a non-empty
action that is none of "copy", "function", "map", "set" compiles to no
effect and no error. -/
theorem compileEntry_skip (fields : List String)
    (out : List (String × Transformation)) (target : String) (desc : TransDesc)
    (a : String) (ha : desc.action = some a) (h1 : a ≠ "") (h2 : a ≠ "copy")
    (h3 : a ≠ "function") (h4 : a ≠ "map") (h5 : a ≠ "set") :
    compileEntry fields out (target, TransRule.descRule desc) = Except.ok out := by
  have hc1 : ¬(desc.action = Option.none ∨ desc.action = some "" ∨
      desc.action = some "copy") := by
    rw [ha]
    rintro (h | h | h) <;> simp_all
  have hc2 : ¬(desc.action = some "function") := by
    rw [ha]; simpa using h3
  have hc3 : ¬(desc.action = some "map") := by
    rw [ha]; simpa using h4
  have hc4 : ¬(desc.action = some "set") := by
    rw [ha]; simpa using h5
  simp only [compileEntry]
  rw [if_neg hc1, if_neg hc2, if_neg hc3, if_neg hc4]
  rfl

/-- Claim C10: a transformation entry whose rule dict carries a non-empty
action that is none of "copy", "function", "map", "set" is silently
skipped: compiling with the entry equals compiling without it (no error
from the entry, nothing stored for its target), so a successful compile
has at most one output value per remaining entry — the mapped output row
is shorter than the target list — and contains nothing for the skipped
target when no other entry names it. -/
theorem claim_C10_unknown_action_skipped (fields : List String)
    (pre post : List (String × TransRule)) (target : String) (desc : TransDesc)
    (a : String) (ha : desc.action = some a) (h1 : a ≠ "") (h2 : a ≠ "copy")
    (h3 : a ≠ "function") (h4 : a ≠ "map") (h5 : a ≠ "set") :
    compile_transformation (pre ++ (target, TransRule.descRule desc) :: post)
        fields =
      compile_transformation (pre ++ post) fields ∧
    (∀ out,
      compile_transformation (pre ++ (target, TransRule.descRule desc) :: post)
          fields = Except.ok out →
      out.length ≤ pre.length + post.length ∧
      (target ∉ pre.map Prod.fst → target ∉ post.map Prod.fst →
        target ∉ out.map Prod.fst)) := by
  have heq : compile_transformation
      (pre ++ (target, TransRule.descRule desc) :: post) fields =
      compile_transformation (pre ++ post) fields := by
    unfold compile_transformation
    rw [List.foldlM_append, List.foldlM_append]
    cases hpre : List.foldlM (compileEntry fields) [] pre with
    | error e => rfl
    | ok mid =>
      simp only [ok_bind]
      rw [List.foldlM_cons,
        compileEntry_skip fields mid target desc a ha h1 h2 h3 h4 h5, ok_bind]
  refine ⟨heq, ?_⟩
  intro out hout
  rw [heq] at hout
  unfold compile_transformation at hout
  constructor
  · have := compile_length fields (pre ++ post) [] out hout
    simpa using this
  · intro hpre hpost hc
    rcases compile_keys fields (pre ++ post) [] out hout target hc with h0 | h0
    · simp at h0
    · rw [List.map_append] at h0
      rcases List.mem_append.mp h0 with hin | hin

      · exact hpre hin
      · exact hpost hin

/-- Witness for claim C10: a concrete transformation list whose second
entry carries the unknown action "uppercase" compiles exactly as if that
entry were absent. -/
theorem claim_C10_witness :
    compile_transformation
        ([("name", TransRule.sourceStr "name")] ++
          ("bad", TransRule.descRule { action := some "uppercase" }) :: [])
        ["name"] =
      compile_transformation ([("name", TransRule.sourceStr "name")] ++ [])
        ["name"] :=
  (claim_C10_unknown_action_skipped ["name"]
    [("name", TransRule.sourceStr "name")] [] "bad"
    { action := some "uppercase" } "uppercase" rfl (by decide) (by decide)
    (by decide) (by decide) (by decide)).1

end Brewery
